import Mathlib

/-!
Verification development for the `osaka` terminal agent.

The Python sources are shallowly embedded over `List Char` strings and an
association-list filesystem.  Each definition mirrors one function of the
repository (`src/osaka/...`); the theorems at the end of the file settle the
frozen specification claims.
-/

namespace Osaka

/-- Strings are modelled as lists of characters. -/
abbrev Str := List Char

/-! ## Python string primitives

`pyContains`, `pyCount` and `pyReplace` embed Python's `in` operator,
`str.count` and `str.replace` (leftmost, non-overlapping scan; the empty
needle matches at every character boundary, so `count("") = len + 1` and
`replace("", new)` inserts `new` at every boundary, exactly as in CPython). -/

/-- Python's `old in content` substring test. -/
def pyContains (content old : Str) : Bool :=
  old.isPrefixOf content ||
    match content with
    | [] => false
    | _ :: rest => pyContains rest old

/-- Python's `content.count(old)`: non-overlapping occurrence count. -/
def pyCount (old : Str) : Str → Nat
  | [] => if old.isEmpty then 1 else 0
  | c :: rest =>
    if h : old ≠ [] ∧ old.isPrefixOf (c :: rest) then
      1 + pyCount old ((c :: rest).drop old.length)
    else if old.isEmpty then
      1 + pyCount old rest
    else
      pyCount old rest
  termination_by s => s.length
  decreasing_by
  · simp only [List.length_drop]
    have : old.length ≥ 1 := by
      cases hol : old with
      | nil => exact absurd hol h.1
      | cons a t => simp
    simp [List.length_cons]
    omega
  · simp [List.length_cons]
  · simp [List.length_cons]

/-- Python's `content.replace(old, new)`: replace every non-overlapping
occurrence, scanning left to right. -/
def pyReplace (old new : Str) : Str → Str
  | [] => if old.isEmpty then new else []
  | c :: rest =>
    if h : old ≠ [] ∧ old.isPrefixOf (c :: rest) then
      new ++ pyReplace old new ((c :: rest).drop old.length)
    else if old.isEmpty then
      new ++ c :: pyReplace old new rest
    else
      c :: pyReplace old new rest
  termination_by s => s.length
  decreasing_by
  · simp only [List.length_drop]
    have : old.length ≥ 1 := by
      cases hol : old with
      | nil => exact absurd hol h.1
      | cons a t => simp
    simp [List.length_cons]
    omega
  · simp [List.length_cons]
  · simp [List.length_cons]

/-- Python's `s.lower()` (ASCII case folding suffices for the embedded data). -/
def toLowerStr (s : Str) : Str := s.map Char.toLower

/-! ## Filesystem model

The filesystem is an association list from full path strings to file
contents.  A path absent from the list is a missing (or unreadable) file. -/

/-- Filesystem: association list from paths to UTF-8 text contents. -/
abbrev FS := List (Str × Str)

/-- Content of the file at `p`, if it exists and is readable. -/
def fsGet : FS → Str → Option Str
  | [], _ => none
  | (q, v) :: t, p => if q = p then some v else fsGet t p

/-- Write `v` at path `p` (overwrite or create). -/
def fsSet : FS → Str → Str → FS
  | [], p, v => [(p, v)]
  | (q, w) :: t, p, v => if q = p then (p, v) :: t else (q, w) :: fsSet t p v

/-- Delete the file at path `p` (`os.remove`). -/
def fsRemove : FS → Str → FS
  | [], _ => []
  | (q, v) :: t, p => if q = p then fsRemove t p else (q, v) :: fsRemove t p

@[simp] theorem fsGet_fsSet (fs : FS) (p v q) :
    fsGet (fsSet fs p v) q = if q = p then some v else fsGet fs q := by
  induction fs with
  | nil =>
    by_cases h : q = p
    · simp [fsSet, fsGet, h]
    · simp [fsSet, fsGet, h, Ne.symm h]
  | cons e t ih =>
    obtain ⟨a, b⟩ := e
    by_cases hap : a = p
    · subst hap
      simp only [fsSet, if_pos rfl, fsGet]
      by_cases hqa : q = a
      · simp [hqa]
      · simp [fsGet, hqa, Ne.symm hqa]
    · simp only [fsSet, if_neg hap, fsGet, ih]
      by_cases haq : a = q
      · have hqp : ¬q = p := fun hh => hap (haq.trans hh)
        simp [haq, hqp]
      · simp [haq]

@[simp] theorem fsGet_fsRemove (fs : FS) (p q) :
    fsGet (fsRemove fs p) q = if q = p then none else fsGet fs q := by
  induction fs with
  | nil => simp [fsRemove, fsGet]
  | cons e t ih =>
    obtain ⟨a, b⟩ := e
    by_cases hap : a = p
    · subst hap
      by_cases hqp : q = a
      · subst hqp
        simp [fsRemove, ih]
      · simp [fsRemove, fsGet, ih, hqp, Ne.symm hqp]
    · simp only [fsRemove, if_neg hap, fsGet, ih]
      by_cases haq : a = q
      · have hqp : ¬q = p := fun hh => hap (haq.trans hh)
        simp [haq, hqp]
      · simp [haq]

/-! ## Backup manager (`src/osaka/utils/backup.py`) -/

/-- `BACKUP_DIR` constant from `src/osaka/config.py`. -/
def BACKUP_DIR : Str := ".osaka_backups".toList

/-- `os.path.basename`: the part of the path after the last slash. -/
def basename (p : Str) : Str := (p.reverse.takeWhile (fun c => !(c = '/' : Bool))).reverse

/-- The backup path `os.path.join(BACKUP_DIR, f"{basename(path)}_{ts}.backup")`
computed by `BackupManager.create_backup`; `ts` is the strftime timestamp
string obtained from the environment. -/
def backupPathOf (path ts : Str) : Str :=
  BACKUP_DIR ++ '/' :: (basename path ++ '_' :: ts ++ ".backup".toList)

/-- `BackupManager.create_backup`: if the file exists, copy its current bytes
to the timestamped backup path and return that path; otherwise do nothing and
return `None`.  The timestamp string `ts` is an input from the environment
(`datetime.now().strftime(...)`). -/
def create_backup (fs : FS) (path ts : Str) : Option Str × FS :=
  let backup_path := backupPathOf path ts
  match fsGet fs path with
  | some content => (some backup_path, fsSet fs backup_path content)
  | none => (none, fs)

/-- `BackupManager._setup_backup_directory`, called from
`BackupManager.__init__`: create the backup directory if absent.  The set of
existing directories is modelled as a list of paths. -/
def setup_backup_directory (dirs : List Str) : List Str :=
  if BACKUP_DIR ∈ dirs then dirs else BACKUP_DIR :: dirs

/-- `BackupManager.__init__`: its only filesystem effect is the eager call to
`_setup_backup_directory`. -/
def backupManagerInit (dirs : List Str) : List Str :=
  setup_backup_directory dirs

/-! ## Edit history (shared stack) -/

/-- The `action` tag recorded in a history entry. -/
inductive Action where
  | create
  | edit
deriving DecidableEq, Repr

/-- One entry of the shared `edit_history` list (a Python dict in the source;
`multi_file` is the extra flag added by `SearchTools.multi_file_edit`). -/
structure HistoryEntry where
  path : Str
  backup_path : Option Str
  action : Action
  timestamp : Str
  multi_file : Bool
deriving DecidableEq, Repr

/-- The mutable state shared by the tool classes: the filesystem and the
`edit_history` stack (appended at the end, popped from the end, as Python's
`list.append` / `list.pop`). -/
structure AgentState where
  fs : FS
  edit_history : List HistoryEntry
deriving DecidableEq, Repr

/-! ## FileTools.edit_file (`src/osaka/tools/file_tools.py`) -/

/-- Outcome of `FileTools.edit_file`, mirroring its three return strings. -/
inductive EditResult where
  | success_edit (path : Str)
  | success_create (path : Str)
  | text_not_found (old : Str)
deriving DecidableEq, Repr

/-- `FileTools.edit_file`: back up first, then either replace all occurrences
of `old_text` (file exists and `old_text` non-empty) or write `new_text` as
the whole file; each successful branch appends a history entry. -/
def edit_file (st : AgentState) (path old_text new_text ts : Str) :
    EditResult × AgentState :=
  let bk := create_backup st.fs path ts
  let backup_path := bk.1
  let fs1 := bk.2
  let file_existed := (fsGet fs1 path).isSome
  if file_existed ∧ old_text ≠ [] then
    let content := (fsGet fs1 path).getD []
    if pyContains content old_text then
      let fs2 := fsSet fs1 path (pyReplace old_text new_text content)
      (.success_edit path,
        { fs := fs2,
          edit_history := st.edit_history ++
            [⟨path, backup_path, .edit, ts, false⟩] })
    else
      (.text_not_found old_text, { st with fs := fs1 })
  else
    let fs2 := fsSet fs1 path new_text
    (.success_create path,
      { fs := fs2,
        edit_history := st.edit_history ++
          [⟨path, backup_path, .create, ts, false⟩] })

/-! ## HistoryTools.undo_last_edit (`src/osaka/tools/history_tools.py`) -/

/-- Outcome of `HistoryTools.undo_last_edit`, mirroring its return strings. -/
inductive UndoResult where
  | empty_history
  | removed_created (path : Str)
  | restored (path : Str)
  | backup_missing (path : Str)
deriving DecidableEq, Repr

/-- The exact message strings returned by `undo_last_edit`. -/
def renderUndo : UndoResult → Str
  | .empty_history => "No edits to undo".toList
  | .removed_created p => "Undone: Removed newly created file ".toList ++ p
  | .restored p => "Undone: Restored ".toList ++ p ++ " from backup".toList
  | .backup_missing p => "Error: Backup not found for ".toList ++ p

/-- `HistoryTools.undo_last_edit`: pop the most recent entry; delete the file
for a `create` entry, restore from the recorded backup for an `edit` entry
(reporting a missing backup as an error message). -/
def undo_last_edit (st : AgentState) : UndoResult × AgentState :=
  match st.edit_history.getLast? with
  | none => (.empty_history, st)
  | some e =>
    let hist := st.edit_history.dropLast
    match e.action with
    | .create =>
      let fs := if (fsGet st.fs e.path).isSome then fsRemove st.fs e.path else st.fs
      (.removed_created e.path, { fs := fs, edit_history := hist })
    | .edit =>
      match e.backup_path with
      | some bp =>
        match fsGet st.fs bp with
        | some bytes =>
          (.restored e.path, { fs := fsSet st.fs e.path bytes, edit_history := hist })
        | none => (.backup_missing e.path, { fs := st.fs, edit_history := hist })
      | none => (.backup_missing e.path, { fs := st.fs, edit_history := hist })

/-! ## Claims C1 and C6: single-file edit, backup and undo -/

/-- Two paths with different lookup results are distinct. -/
theorem ne_of_get_none_some {fs : FS} {p q v : Str}
    (hp : fsGet fs p = none) (hq : fsGet fs q = some v) : p ≠ q := by
  intro hh
  rw [hh, hq] at hp
  exact Option.noConfusion hp

/-- Evaluation of `edit_file` in its replace branch: file exists with content
`C`, `old_text` non-empty and contained in `C`, backup path fresh. -/
theorem edit_file_replace_eq
    (st : AgentState) (F C S T ts : Str)
    (h1 : fsGet st.fs F = some C) (h2 : S ≠ [])
    (h3 : pyContains C S = true)
    (h4 : fsGet st.fs (backupPathOf F ts) = none) :
    edit_file st F S T ts =
      (.success_edit F,
        { fs := fsSet (fsSet st.fs (backupPathOf F ts) C) F (pyReplace S T C),
          edit_history := st.edit_history ++
            [⟨F, some (backupPathOf F ts), .edit, ts, false⟩] }) := by
  have hFB : ¬F = backupPathOf F ts := fun hh => (ne_of_get_none_some h4 h1) hh.symm
  simp only [edit_file, create_backup, h1]
  simp [fsGet_fsSet, hFB, h1, h2, h3]

/-- The post-state of one `edit_file` call. -/
def editStep (st : AgentState) (path old_text new_text ts : Str) : AgentState :=
  (edit_file st path old_text new_text ts).2

/-- The post-state of one `undo_last_edit` call. -/
def undoStep (st : AgentState) : AgentState :=
  (undo_last_edit st).2

/-- C1: For every existing UTF-8 file `F` with content `C` and every non-empty
substring `S` of `C`, `edit_file(F, S, T)` rewrites `F` to `C` with every
occurrence of `S` replaced by `T`, creates exactly one backup file (at the
fresh timestamped backup path) whose content equals the pre-edit `C`, leaves
every other file untouched, pushes one `edit` history entry, and a subsequent
`undo_last_edit()` restores `F` to content `C` exactly and pops that entry. -/
theorem C1_edit_replace_backup_undo
    (st : AgentState) (F C S T ts : Str)
    (h1 : fsGet st.fs F = some C) (h2 : S ≠ [])
    (h3 : pyContains C S = true)
    (h4 : fsGet st.fs (backupPathOf F ts) = none) :
    (edit_file st F S T ts).1 = .success_edit F ∧
    fsGet (edit_file st F S T ts).2.fs F = some (pyReplace S T C) ∧
    fsGet (edit_file st F S T ts).2.fs (backupPathOf F ts) = some C ∧
    (∀ p, p ≠ F → p ≠ backupPathOf F ts →
      fsGet (edit_file st F S T ts).2.fs p = fsGet st.fs p) ∧
    (edit_file st F S T ts).2.edit_history =
      st.edit_history ++ [⟨F, some (backupPathOf F ts), .edit, ts, false⟩] ∧
    (undo_last_edit (edit_file st F S T ts).2).1 = .restored F ∧
    fsGet (undo_last_edit (edit_file st F S T ts).2).2.fs F = some C ∧
    (undo_last_edit (edit_file st F S T ts).2).2.edit_history = st.edit_history := by
  have hBF : ¬backupPathOf F ts = F := ne_of_get_none_some h4 h1
  have hstep := edit_file_replace_eq st F C S T ts h1 h2 h3 h4
  rw [hstep]
  refine ⟨rfl, by simp, by simp [hBF], ?_, rfl, ?_, ?_, ?_⟩
  · intro p hpF hpB
    simp [hpF, hpB]
  · simp [undo_last_edit, List.getLast?_concat, hBF]
  · simp [undo_last_edit, List.getLast?_concat, hBF]
  · simp [undo_last_edit, List.getLast?_concat, List.dropLast_concat, hBF]

/-- Witness for C1 at a concrete input. -/
theorem C1_edit_replace_backup_undo_witness :
    (fsGet (AgentState.mk [("f".toList, "ab".toList)] []).fs "f".toList =
        some "ab".toList ∧
      "a".toList ≠ ([] : Str) ∧
      pyContains "ab".toList "a".toList = true ∧
      fsGet (AgentState.mk [("f".toList, "ab".toList)] []).fs
        (backupPathOf "f".toList "t".toList) = none) ∧
    ((edit_file (AgentState.mk [("f".toList, "ab".toList)] [])
        "f".toList "a".toList "xy".toList "t".toList).1 =
      .success_edit "f".toList ∧
    fsGet (edit_file (AgentState.mk [("f".toList, "ab".toList)] [])
        "f".toList "a".toList "xy".toList "t".toList).2.fs "f".toList =
      some (pyReplace "a".toList "xy".toList "ab".toList) ∧
    fsGet (edit_file (AgentState.mk [("f".toList, "ab".toList)] [])
        "f".toList "a".toList "xy".toList "t".toList).2.fs
        (backupPathOf "f".toList "t".toList) = some "ab".toList ∧
    (∀ p, p ≠ "f".toList → p ≠ backupPathOf "f".toList "t".toList →
      fsGet (edit_file (AgentState.mk [("f".toList, "ab".toList)] [])
        "f".toList "a".toList "xy".toList "t".toList).2.fs p =
        fsGet (AgentState.mk [("f".toList, "ab".toList)] []).fs p) ∧
    (edit_file (AgentState.mk [("f".toList, "ab".toList)] [])
        "f".toList "a".toList "xy".toList "t".toList).2.edit_history =
      (AgentState.mk [("f".toList, "ab".toList)] []).edit_history ++
        [⟨"f".toList, some (backupPathOf "f".toList "t".toList), .edit,
          "t".toList, false⟩] ∧
    (undo_last_edit (edit_file (AgentState.mk [("f".toList, "ab".toList)] [])
        "f".toList "a".toList "xy".toList "t".toList).2).1 =
      .restored "f".toList ∧
    fsGet (undo_last_edit (edit_file (AgentState.mk [("f".toList, "ab".toList)] [])
        "f".toList "a".toList "xy".toList "t".toList).2).2.fs "f".toList =
      some "ab".toList ∧
    (undo_last_edit (edit_file (AgentState.mk [("f".toList, "ab".toList)] [])
        "f".toList "a".toList "xy".toList "t".toList).2).2.edit_history =
      (AgentState.mk [("f".toList, "ab".toList)] []).edit_history) :=
  ⟨⟨by decide, by decide, by decide, by decide⟩,
    C1_edit_replace_backup_undo (AgentState.mk [("f".toList, "ab".toList)] [])
      "f".toList "ab".toList "a".toList "xy".toList "t".toList
      (by decide) (by decide) (by decide) (by decide)⟩

/-- C6: `edit_file(F, S, T)` with `S` non-empty but not a substring of `F`'s
content `C` returns the `TextNotFound` result, leaves `F`'s content and the
history stack unmodified, but has already written a backup of the pre-call
content to disk (a non-reverted side effect); no other file changes. -/
theorem C6_edit_text_not_found
    (st : AgentState) (F C S T ts : Str)
    (h1 : fsGet st.fs F = some C) (h2 : S ≠ [])
    (h3 : pyContains C S = false)
    (h4 : fsGet st.fs (backupPathOf F ts) = none) :
    (edit_file st F S T ts).1 = .text_not_found S ∧
    fsGet (edit_file st F S T ts).2.fs F = some C ∧
    (edit_file st F S T ts).2.edit_history = st.edit_history ∧
    fsGet (edit_file st F S T ts).2.fs (backupPathOf F ts) = some C ∧
    (∀ p, p ≠ F → p ≠ backupPathOf F ts →
      fsGet (edit_file st F S T ts).2.fs p = fsGet st.fs p) := by
  have hBF : ¬backupPathOf F ts = F := by
    intro hh
    rw [hh, h1] at h4
    exact Option.noConfusion h4
  have hFB : ¬F = backupPathOf F ts := fun hh => hBF hh.symm
  have hstep : edit_file st F S T ts =
      (.text_not_found S, { st with fs := fsSet st.fs (backupPathOf F ts) C }) := by
    simp only [edit_file, create_backup, h1]
    simp [fsGet_fsSet, hFB, h1, h2, h3]
  rw [hstep]
  refine ⟨rfl, by simp [hFB, h1], rfl, by simp, ?_⟩
  intro p hpF hpB
  simp [hpB]

/-- Witness for C6 at a concrete input. -/
theorem C6_edit_text_not_found_witness :
    (fsGet (AgentState.mk [("f".toList, "ab".toList)] []).fs "f".toList =
        some "ab".toList ∧
      "zz".toList ≠ ([] : Str) ∧
      pyContains "ab".toList "zz".toList = false ∧
      fsGet (AgentState.mk [("f".toList, "ab".toList)] []).fs
        (backupPathOf "f".toList "t".toList) = none) ∧
    ((edit_file (AgentState.mk [("f".toList, "ab".toList)] [])
        "f".toList "zz".toList "xy".toList "t".toList).1 =
      .text_not_found "zz".toList ∧
    fsGet (edit_file (AgentState.mk [("f".toList, "ab".toList)] [])
        "f".toList "zz".toList "xy".toList "t".toList).2.fs "f".toList =
      some "ab".toList ∧
    (edit_file (AgentState.mk [("f".toList, "ab".toList)] [])
        "f".toList "zz".toList "xy".toList "t".toList).2.edit_history =
      (AgentState.mk [("f".toList, "ab".toList)] []).edit_history ∧
    fsGet (edit_file (AgentState.mk [("f".toList, "ab".toList)] [])
        "f".toList "zz".toList "xy".toList "t".toList).2.fs
        (backupPathOf "f".toList "t".toList) = some "ab".toList ∧
    (∀ p, p ≠ "f".toList → p ≠ backupPathOf "f".toList "t".toList →
      fsGet (edit_file (AgentState.mk [("f".toList, "ab".toList)] [])
        "f".toList "zz".toList "xy".toList "t".toList).2.fs p =
        fsGet (AgentState.mk [("f".toList, "ab".toList)] []).fs p)) :=
  ⟨⟨by decide, by decide, by decide, by decide⟩,
    C6_edit_text_not_found (AgentState.mk [("f".toList, "ab".toList)] [])
      "f".toList "ab".toList "zz".toList "xy".toList "t".toList
      (by decide) (by decide) (by decide) (by decide)⟩

/-! ## Claim C2: undo is last-in-first-out over the shared history stack -/

/-- Evaluation of `undo_last_edit` when the most recent entry is an `edit`
whose backup file is present. -/
theorem undo_edit_eq (st : AgentState) (h : List HistoryEntry)
    (F B ts A : Str) (mf : Bool)
    (hh : st.edit_history = h ++ [⟨F, some B, .edit, ts, mf⟩])
    (hb : fsGet st.fs B = some A) :
    undo_last_edit st =
      (.restored F, { fs := fsSet st.fs F A, edit_history := h }) := by
  simp only [undo_last_edit, hh, List.getLast?_concat, List.dropLast_concat]
  simp [hb]

/-- Evaluation of `undo_last_edit` on an empty history. -/
theorem undo_empty_eq (st : AgentState) (hh : st.edit_history = []) :
    undo_last_edit st = (.empty_history, st) := by
  simp [undo_last_edit, hh]

/-- C2: after three sequential successful edits to distinct files `F1`, `F2`,
`F3` (in that order, starting from an empty history and with fresh, pairwise
distinct backup paths), three consecutive `undo_last_edit()` calls revert
`F3`, then `F2`, then `F1`, in that order (each restoring the pre-edit
content), and a fourth call reports the textual `No edits to undo` result
while leaving the state unchanged. -/
theorem C2_undo_lifo
    (st0 : AgentState) (F1 F2 F3 A1 A2 A3 S1 S2 S3 T1 T2 T3 t1 t2 t3 : Str)
    (hH : st0.edit_history = [])
    (hF1 : fsGet st0.fs F1 = some A1)
    (hF2 : fsGet st0.fs F2 = some A2)
    (hF3 : fsGet st0.fs F3 = some A3)
    (hS1 : S1 ≠ []) (hP1 : pyContains A1 S1 = true)
    (hS2 : S2 ≠ []) (hP2 : pyContains A2 S2 = true)
    (hS3 : S3 ≠ []) (hP3 : pyContains A3 S3 = true)
    (hFF12 : F1 ≠ F2) (hFF13 : F1 ≠ F3) (hFF23 : F2 ≠ F3)
    (hB1 : fsGet st0.fs (backupPathOf F1 t1) = none)
    (hB2 : fsGet st0.fs (backupPathOf F2 t2) = none)
    (hB3 : fsGet st0.fs (backupPathOf F3 t3) = none)
    (hBB12 : backupPathOf F1 t1 ≠ backupPathOf F2 t2)
    (hBB13 : backupPathOf F1 t1 ≠ backupPathOf F3 t3)
    (hBB23 : backupPathOf F2 t2 ≠ backupPathOf F3 t3) :
    (let st3 := editStep (editStep (editStep st0 F1 S1 T1 t1) F2 S2 T2 t2) F3 S3 T3 t3
     let st4 := undoStep st3
     let st5 := undoStep st4
     let st6 := undoStep st5
     (edit_file st0 F1 S1 T1 t1).1 = .success_edit F1 ∧
     (edit_file (editStep st0 F1 S1 T1 t1) F2 S2 T2 t2).1 = .success_edit F2 ∧
     (edit_file (editStep (editStep st0 F1 S1 T1 t1) F2 S2 T2 t2) F3 S3 T3 t3).1 =
       .success_edit F3 ∧
     (undo_last_edit st3).1 = .restored F3 ∧
     fsGet st4.fs F3 = some A3 ∧
     (undo_last_edit st4).1 = .restored F2 ∧
     fsGet st5.fs F2 = some A2 ∧
     (undo_last_edit st5).1 = .restored F1 ∧
     fsGet st6.fs F1 = some A1 ∧
     fsGet st6.fs F2 = some A2 ∧
     fsGet st6.fs F3 = some A3 ∧
     (undo_last_edit st6).1 = .empty_history ∧
     renderUndo (undo_last_edit st6).1 = "No edits to undo".toList ∧
     undoStep st6 = st6) := by
  -- distinctness of backup paths from file paths
  have hB1F1 : backupPathOf F1 t1 ≠ F1 := ne_of_get_none_some hB1 hF1
  have hB1F2 : backupPathOf F1 t1 ≠ F2 := ne_of_get_none_some hB1 hF2
  have hB1F3 : backupPathOf F1 t1 ≠ F3 := ne_of_get_none_some hB1 hF3
  have hB2F1 : backupPathOf F2 t2 ≠ F1 := ne_of_get_none_some hB2 hF1
  have hB2F2 : backupPathOf F2 t2 ≠ F2 := ne_of_get_none_some hB2 hF2
  have hB2F3 : backupPathOf F2 t2 ≠ F3 := ne_of_get_none_some hB2 hF3
  have hB3F1 : backupPathOf F3 t3 ≠ F1 := ne_of_get_none_some hB3 hF1
  have hB3F2 : backupPathOf F3 t3 ≠ F2 := ne_of_get_none_some hB3 hF2
  have hB3F3 : backupPathOf F3 t3 ≠ F3 := ne_of_get_none_some hB3 hF3
  -- first edit
  have e1 := edit_file_replace_eq st0 F1 A1 S1 T1 t1 hF1 hS1 hP1 hB1
  have hst1 : editStep st0 F1 S1 T1 t1 =
      { fs := fsSet (fsSet st0.fs (backupPathOf F1 t1) A1) F1 (pyReplace S1 T1 A1),
        edit_history := [⟨F1, some (backupPathOf F1 t1), .edit, t1, false⟩] } := by
    simp [editStep, e1, hH]
  -- second edit
  have hst1F2 : fsGet (editStep st0 F1 S1 T1 t1).fs F2 = some A2 := by
    simp [hst1, Ne.symm hFF12, Ne.symm hB1F2, hF2]
  have hst1B2 : fsGet (editStep st0 F1 S1 T1 t1).fs (backupPathOf F2 t2) = none := by
    simp [hst1, hB2F1, Ne.symm hBB12, hB2]
  have e2 := edit_file_replace_eq (editStep st0 F1 S1 T1 t1) F2 A2 S2 T2 t2
    hst1F2 hS2 hP2 hst1B2
  have hst2 : editStep (editStep st0 F1 S1 T1 t1) F2 S2 T2 t2 =
      { fs := fsSet (fsSet (editStep st0 F1 S1 T1 t1).fs (backupPathOf F2 t2) A2)
          F2 (pyReplace S2 T2 A2),
        edit_history := [⟨F1, some (backupPathOf F1 t1), .edit, t1, false⟩,
          ⟨F2, some (backupPathOf F2 t2), .edit, t2, false⟩] } := by
    show (edit_file (editStep st0 F1 S1 T1 t1) F2 S2 T2 t2).2 = _
    rw [e2]
    simp [hst1]
  -- third edit
  have hst2F3 : fsGet (editStep (editStep st0 F1 S1 T1 t1) F2 S2 T2 t2).fs F3 =
      some A3 := by
    rw [hst2]
    simp [hst1, Ne.symm hFF23, Ne.symm hB2F3, Ne.symm hFF13, Ne.symm hB1F3, hF3]
  have hst2B3 : fsGet (editStep (editStep st0 F1 S1 T1 t1) F2 S2 T2 t2).fs
      (backupPathOf F3 t3) = none := by
    rw [hst2]
    simp [hst1, hB3F2, Ne.symm hBB23, hB3F1, Ne.symm hBB13, hB3]
  have e3 := edit_file_replace_eq (editStep (editStep st0 F1 S1 T1 t1) F2 S2 T2 t2)
    F3 A3 S3 T3 t3 hst2F3 hS3 hP3 hst2B3
  have hst3 : editStep (editStep (editStep st0 F1 S1 T1 t1) F2 S2 T2 t2) F3 S3 T3 t3 =
      { fs := fsSet (fsSet (editStep (editStep st0 F1 S1 T1 t1) F2 S2 T2 t2).fs
          (backupPathOf F3 t3) A3) F3 (pyReplace S3 T3 A3),
        edit_history := [⟨F1, some (backupPathOf F1 t1), .edit, t1, false⟩,
          ⟨F2, some (backupPathOf F2 t2), .edit, t2, false⟩,
          ⟨F3, some (backupPathOf F3 t3), .edit, t3, false⟩] } := by
    show (edit_file (editStep (editStep st0 F1 S1 T1 t1) F2 S2 T2 t2) F3 S3 T3 t3).2 = _
    rw [e3]
    simp [hst2]
  -- first undo: restores F3 from its backup
  have hget3 : fsGet (editStep (editStep (editStep st0 F1 S1 T1 t1) F2 S2 T2 t2)
      F3 S3 T3 t3).fs (backupPathOf F3 t3) = some A3 := by
    simp [hst3, hB3F3]
  have hu1 := undo_edit_eq
    (editStep (editStep (editStep st0 F1 S1 T1 t1) F2 S2 T2 t2) F3 S3 T3 t3)
    [⟨F1, some (backupPathOf F1 t1), .edit, t1, false⟩,
      ⟨F2, some (backupPathOf F2 t2), .edit, t2, false⟩]
    F3 (backupPathOf F3 t3) t3 A3 false (by simp [hst3]) hget3
  have hst4 : undoStep (editStep (editStep (editStep st0 F1 S1 T1 t1) F2 S2 T2 t2)
      F3 S3 T3 t3) =
      { fs := fsSet (editStep (editStep (editStep st0 F1 S1 T1 t1) F2 S2 T2 t2)
          F3 S3 T3 t3).fs F3 A3,
        edit_history := [⟨F1, some (backupPathOf F1 t1), .edit, t1, false⟩,
          ⟨F2, some (backupPathOf F2 t2), .edit, t2, false⟩] } := by
    show (undo_last_edit (editStep (editStep (editStep st0 F1 S1 T1 t1) F2 S2 T2 t2)
      F3 S3 T3 t3)).2 = _
    rw [hu1]
  -- second undo: restores F2 from its backup
  have hget2 : fsGet (undoStep (editStep (editStep (editStep st0 F1 S1 T1 t1)
      F2 S2 T2 t2) F3 S3 T3 t3)).fs (backupPathOf F2 t2) = some A2 := by
    rw [hst4, hst3, hst2]
    simp [hB2F3, hBB23, hB2F2]
  have hu2 := undo_edit_eq
    (undoStep (editStep (editStep (editStep st0 F1 S1 T1 t1) F2 S2 T2 t2) F3 S3 T3 t3))
    [⟨F1, some (backupPathOf F1 t1), .edit, t1, false⟩]
    F2 (backupPathOf F2 t2) t2 A2 false (by simp [hst4]) hget2
  have hst5 : undoStep (undoStep (editStep (editStep (editStep st0 F1 S1 T1 t1)
      F2 S2 T2 t2) F3 S3 T3 t3)) =
      { fs := fsSet (undoStep (editStep (editStep (editStep st0 F1 S1 T1 t1)
          F2 S2 T2 t2) F3 S3 T3 t3)).fs F2 A2,
        edit_history := [⟨F1, some (backupPathOf F1 t1), .edit, t1, false⟩] } := by
    show (undo_last_edit (undoStep (editStep (editStep (editStep st0 F1 S1 T1 t1)
      F2 S2 T2 t2) F3 S3 T3 t3))).2 = _
    rw [hu2]
  -- third undo: restores F1 from its backup
  have hget1 : fsGet (undoStep (undoStep (editStep (editStep (editStep st0
      F1 S1 T1 t1) F2 S2 T2 t2) F3 S3 T3 t3))).fs (backupPathOf F1 t1) = some A1 := by
    rw [hst5, hst4, hst3, hst2, hst1]
    simp [hB1F2, hB1F3, hBB13, hBB12, hB1F1]
  have hu3 := undo_edit_eq
    (undoStep (undoStep (editStep (editStep (editStep st0 F1 S1 T1 t1) F2 S2 T2 t2)
      F3 S3 T3 t3)))
    [] F1 (backupPathOf F1 t1) t1 A1 false (by simp [hst5]) hget1
  have hst6 : undoStep (undoStep (undoStep (editStep (editStep (editStep st0
      F1 S1 T1 t1) F2 S2 T2 t2) F3 S3 T3 t3))) =
      { fs := fsSet (undoStep (undoStep (editStep (editStep (editStep st0
          F1 S1 T1 t1) F2 S2 T2 t2) F3 S3 T3 t3))).fs F1 A1,
        edit_history := [] } := by
    show (undo_last_edit (undoStep (undoStep (editStep (editStep (editStep st0
      F1 S1 T1 t1) F2 S2 T2 t2) F3 S3 T3 t3)))).2 = _
    rw [hu3]
  -- fourth undo: empty history
  have hu4 := undo_empty_eq
    (undoStep (undoStep (undoStep (editStep (editStep (editStep st0 F1 S1 T1 t1)
      F2 S2 T2 t2) F3 S3 T3 t3)))) (by simp [hst6])
  -- assemble the conjunction
  refine ⟨?_, ?_, ?_, ?_, ?_, ?_, ?_, ?_, ?_, ?_, ?_, ?_, ?_, ?_⟩
  · rw [e1]
  · rw [e2]
  · rw [e3]
  · rw [hu1]
  · rw [hst4]
    simp
  · rw [hu2]
  · rw [hst5]
    simp
  · rw [hu3]
  · rw [hst6]
    simp
  · -- F2 still restored after the third undo
    rw [hst6, hst5]
    simp [Ne.symm hFF12]
  · -- F3 still restored after the third undo
    rw [hst6, hst5, hst4]
    simp [Ne.symm hFF13, Ne.symm hFF23]
  · rw [hu4]
  · rw [hu4]
    simp [renderUndo]
  · show (undo_last_edit (undoStep (undoStep (undoStep (editStep (editStep
      (editStep st0 F1 S1 T1 t1) F2 S2 T2 t2) F3 S3 T3 t3))))).2 = _
    rw [hu4]

/-- Witness for C2 at a concrete input: three files `p`, `q`, `r`. -/
theorem C2_undo_lifo_witness :
    (let st3 := editStep (editStep (editStep
        (AgentState.mk [("p".toList, "a".toList), ("q".toList, "b".toList),
          ("r".toList, "c".toList)] [])
        "p".toList "a".toList "d".toList "1".toList)
        "q".toList "b".toList "e".toList "2".toList)
        "r".toList "c".toList "f".toList "3".toList
     let st4 := undoStep st3
     let st5 := undoStep st4
     let st6 := undoStep st5
     (edit_file (AgentState.mk [("p".toList, "a".toList), ("q".toList, "b".toList),
          ("r".toList, "c".toList)] [])
        "p".toList "a".toList "d".toList "1".toList).1 = .success_edit "p".toList ∧
     (edit_file (editStep (AgentState.mk [("p".toList, "a".toList),
          ("q".toList, "b".toList), ("r".toList, "c".toList)] [])
        "p".toList "a".toList "d".toList "1".toList)
        "q".toList "b".toList "e".toList "2".toList).1 = .success_edit "q".toList ∧
     (edit_file (editStep (editStep (AgentState.mk [("p".toList, "a".toList),
          ("q".toList, "b".toList), ("r".toList, "c".toList)] [])
        "p".toList "a".toList "d".toList "1".toList)
        "q".toList "b".toList "e".toList "2".toList)
        "r".toList "c".toList "f".toList "3".toList).1 = .success_edit "r".toList ∧
     (undo_last_edit st3).1 = .restored "r".toList ∧
     fsGet st4.fs "r".toList = some "c".toList ∧
     (undo_last_edit st4).1 = .restored "q".toList ∧
     fsGet st5.fs "q".toList = some "b".toList ∧
     (undo_last_edit st5).1 = .restored "p".toList ∧
     fsGet st6.fs "p".toList = some "a".toList ∧
     fsGet st6.fs "q".toList = some "b".toList ∧
     fsGet st6.fs "r".toList = some "c".toList ∧
     (undo_last_edit st6).1 = .empty_history ∧
     renderUndo (undo_last_edit st6).1 = "No edits to undo".toList ∧
     undoStep st6 = st6) :=
  C2_undo_lifo
    (AgentState.mk [("p".toList, "a".toList), ("q".toList, "b".toList),
      ("r".toList, "c".toList)] [])
    "p".toList "q".toList "r".toList "a".toList "b".toList "c".toList
    "a".toList "b".toList "c".toList "d".toList "e".toList "f".toList
    "1".toList "2".toList "3".toList
    (by decide) (by decide) (by decide) (by decide) (by decide) (by decide)
    (by decide) (by decide) (by decide) (by decide) (by decide) (by decide)
    (by decide) (by decide) (by decide) (by decide) (by decide) (by decide)
    (by decide)

/-! ## SafetyGate (`src/osaka/utils/validators.py`) and CommandRunner
(`src/osaka/tools/system_tools.py`)

`is_command_safe` tests the command against five fixed regular expressions
with `re.IGNORECASE`.  Each pattern is embedded as a direct matcher; `\b` is
a word-boundary test, `\s` the ASCII whitespace class, `\w` the word class
(the embedded commands are ASCII, where Python's Unicode classes coincide
with these). -/

/-- Python regex `\w` (ASCII range). -/
def isWordChar (c : Char) : Bool :=
  ('a' ≤ c ∧ c ≤ 'z') ∨ ('A' ≤ c ∧ c ≤ 'Z') ∨ ('0' ≤ c ∧ c ≤ '9') ∨ c = '_'

/-- Python regex `\s` (ASCII range). -/
def isSpaceChar (c : Char) : Bool :=
  c = ' ' ∨ c = '\t' ∨ c = '\n' ∨ c = '\x0d' ∨ c = '\x0b' ∨ c = '\x0c'

/-- Match a literal (given lower-cased) case-insensitively at the head of the
input; return the rest on success. -/
def matchLitCI : Str → Str → Option Str
  | [], input => some input
  | _ :: _, [] => none
  | l :: ls, c :: rest => if c.toLower = l then matchLitCI ls rest else none

/-- Consume one or more whitespace characters (`\s+`); greedy matching is
exact here because every following literal starts with a non-space. -/
def ws1 : Str → Option Str
  | [] => none
  | c :: rest => if isSpaceChar c then some (rest.dropWhile isSpaceChar) else none

/-- Consume zero or more whitespace characters (`\s*`). -/
def ws0 (s : Str) : Str := s.dropWhile isSpaceChar

/-- Word boundary before a word character: start of string or a preceding
non-word character. -/
def boundaryBefore : Option Char → Bool
  | none => true
  | some c => !isWordChar c

/-- `\brm\s+-rf\s+/` matches at this position. -/
def p1At (prev : Option Char) (s : Str) : Bool :=
  boundaryBefore prev &&
    (((((matchLitCI "rm".toList s).bind ws1).bind
      (matchLitCI "-rf".toList)).bind ws1).bind (matchLitCI "/".toList)).isSome

/-- `\bformat\b` matches at this position. -/
def p2At (prev : Option Char) (s : Str) : Bool :=
  boundaryBefore prev &&
    match matchLitCI "format".toList s with
    | some rest =>
      match rest.head? with
      | none => true
      | some c => !isWordChar c
    | none => false

/-- `\bmkfs\b` matches at this position. -/
def p3At (prev : Option Char) (s : Str) : Bool :=
  boundaryBefore prev &&
    match matchLitCI "mkfs".toList s with
    | some rest =>
      match rest.head? with
      | none => true
      | some c => !isWordChar c
    | none => false

/-- `\bdd\s+if=` matches at this position. -/
def p4At (prev : Option Char) (s : Str) : Bool :=
  boundaryBefore prev &&
    ((((matchLitCI "dd".toList s).bind ws1).bind (matchLitCI "if=".toList))).isSome

/-- `>\s*/dev/sd` matches at this position. -/
def p5At (_prev : Option Char) (s : Str) : Bool :=
  ((matchLitCI ">".toList s).map (fun r => matchLitCI "/dev/sd".toList (ws0 r))).bind
    id |>.isSome

/-- `re.search`: try the pattern at every position of the string. -/
def reSearch (f : Option Char → Str → Bool) : Option Char → Str → Bool
  | prev, [] => f prev []
  | prev, c :: rest => f prev (c :: rest) || reSearch f (some c) rest

/-- `is_command_safe` from `src/osaka/utils/validators.py`: the command is
safe iff none of the five dangerous patterns matches anywhere
(case-insensitively). -/
def is_command_safe (command : Str) : Bool :=
  !(reSearch p1At none command || reSearch p2At none command ||
    reSearch p3At none command || reSearch p4At none command ||
    reSearch p5At none command)

/-- `DEFAULT_TIMEOUT` from `src/osaka/config.py`. -/
def DEFAULT_TIMEOUT : Nat := 30

/-- Outcome of `SystemTools.run_command` up to the subprocess boundary: the
`spawned` constructor is the single point at which `subprocess.run` would be
invoked; the other constructors are returned without creating any
subprocess. -/
inductive RunOutcome where
  | dir_not_found (wd : Str)
  | blocked (cmd : Str)
  | spawned (cmd wd : Str) (timeout : Nat)
deriving DecidableEq, Repr

/-- `SystemTools.run_command`: check the working directory, then the safety
gate, and only then hand the command to the shell.  `wdExists` abstracts
`os.path.exists(working_directory)`; the subprocess's own output formatting
lies beyond the model boundary and is irrelevant to the gate. -/
def run_command (wdExists : Bool) (command wd : Str) (timeout : Nat) : RunOutcome :=
  if !wdExists then .dir_not_found wd
  else if !is_command_safe command then .blocked command
  else .spawned command wd timeout

/-! ## Claim C3: the safety gate blocks dangerous commands before execution -/

/-- C3: `is_safe("rm -rf /")` is false, `is_safe("ls -la")` is true, and for
every command on which `is_safe` is false, `run_command` (with an existing
working directory) returns the `CommandBlocked` message and never reaches the
subprocess-creation step. -/
theorem C3_safety_gate :
    is_command_safe "rm -rf /".toList = false ∧
    is_command_safe "ls -la".toList = true ∧
    (∀ cmd wd timeout, is_command_safe cmd = false →
      run_command true cmd wd timeout = .blocked cmd ∧
      ∀ c w t, run_command true cmd wd timeout ≠ .spawned c w t) := by
  refine ⟨by decide, by decide, ?_⟩
  intro cmd wd timeout hunsafe
  have hb : run_command true cmd wd timeout = .blocked cmd := by
    simp [run_command, hunsafe]
  exact ⟨hb, fun c w t hc => by rw [hb] at hc; exact RunOutcome.noConfusion hc⟩

/-- Witness for C3's universally quantified part at the concrete blocked
command `rm -rf /`. -/
theorem C3_safety_gate_witness :
    is_command_safe "rm -rf /".toList = false ∧
    (run_command true "rm -rf /".toList ".".toList 30 = .blocked "rm -rf /".toList ∧
      ∀ c w t, run_command true "rm -rf /".toList ".".toList 30 ≠ .spawned c w t) :=
  ⟨by decide,
    C3_safety_gate.2.2 "rm -rf /".toList ".".toList 30 (by decide)⟩

/-! ## Orchestrator terminal answer (`src/osaka/agent.py`, `AIAgent.chat`) -/

/-- A content block of a model response (`response.content` items). -/
inductive Block where
  | text (s : Str)
  | toolUse (id nm : Str)
deriving DecidableEq, Repr

/-- Whether a block is a `tool_use` block. -/
def Block.isToolUse : Block → Bool
  | .toolUse _ _ => true
  | .text _ => false

/-- The `text` payload of a block (a `tool_use` block has none; the code path
that reads it is only reached when no `tool_use` block exists). -/
def Block.textOf : Block → Str
  | .text s => s
  | .toolUse _ _ => []

/-- The terminal-answer step of `AIAgent.chat`: when the response produced no
`tool_use` blocks (`tool_results` is empty), the loop returns
`response.content[0].text` — the text of the FIRST block — or the empty
string when `response.content` is empty; otherwise (`some` tool use) the loop
continues and no terminal answer is produced this iteration. -/
def chatReturn (content : List Block) : Option Str :=
  if content.any Block.isToolUse then none
  else some (match content with
    | [] => []
    | b :: _ => b.textOf)

/-- The concatenated `Text` content of a response, as the specification
describes the terminal answer. -/
def concatTexts (content : List Block) : Str :=
  content.flatMap Block.textOf

/-- `response.content[0].text if response.content else ""`: the text of the
first block, or empty. -/
def firstText : List Block → Str
  | [] => []
  | b :: _ => b.textOf

/-! ## Claim C8: the terminal answer on a tool-free response -/

/-- C8 counterexample: a response with two text blocks and zero `ToolUse`
blocks.  `AIAgent.chat` returns only the first block's text `"a"`, not the
concatenation `"ab"` of all `Text` content, refuting the claim as stated. -/
theorem C8_first_block_not_concat_counterexample :
    chatReturn [Block.text "a".toList, Block.text "b".toList] =
      some "a".toList ∧
    concatTexts [Block.text "a".toList, Block.text "b".toList] = "ab".toList ∧
    chatReturn [Block.text "a".toList, Block.text "b".toList] ≠
      some (concatTexts [Block.text "a".toList, Block.text "b".toList]) := by
  refine ⟨by decide, by decide, by decide⟩

/-- C8 amended: whenever a model response contains zero `ToolUse` blocks, the
Orchestrator returns the text of the FIRST content block (the empty string
for an empty response) as the turn's terminal answer; this agrees with the
concatenation of all `Text` content when the response has at most one
block. -/
theorem C8_terminal_answer_first_block
    (content : List Block) (h : content.any Block.isToolUse = false) :
    chatReturn content = some (firstText content) ∧
    (content.length ≤ 1 →
      chatReturn content = some (concatTexts content)) := by
  constructor
  · cases content <;> simp [chatReturn, firstText, h]
  · intro hlen
    match content with
    | [] => simp [chatReturn, concatTexts]
    | [b] =>
      simp only [List.any_cons, List.any_nil, Bool.or_false] at h
      simp [chatReturn, concatTexts, h]
    | b :: c :: rest => simp at hlen

/-- Witness for C8's amended theorem on a single-text-block response. -/
theorem C8_terminal_answer_first_block_witness :
    ([Block.text "hi".toList].any Block.isToolUse = false) ∧
    (chatReturn [Block.text "hi".toList] = some (firstText [Block.text "hi".toList]) ∧
    ([Block.text "hi".toList].length ≤ 1 →
      chatReturn [Block.text "hi".toList] =
        some (concatTexts [Block.text "hi".toList]))) :=
  ⟨by decide, C8_terminal_answer_first_block [Block.text "hi".toList] (by decide)⟩

/-! ## Claim C9: when is the backup directory created? -/

/-- C9 counterexample: with no directories present and zero `create_backup`
calls, the `BackupManager` constructor alone has already created the backup
directory (`__init__` calls `_setup_backup_directory` eagerly), refuting the
claim that no backup-directory creation happens before the first backup is
requested. -/
theorem C9_eager_creation_counterexample :
    backupManagerInit [] = [BACKUP_DIR] ∧ ([] : List Str) ≠ [BACKUP_DIR] := by
  refine ⟨by decide, by decide⟩

/-- C9 amended: the backup directory is created eagerly at `BackupManager`
construction time when absent (and construction changes nothing when it
already exists); `create_backup` itself never creates the directory. -/
theorem C9_backup_dir_created_at_init (dirs : List Str) :
    BACKUP_DIR ∈ backupManagerInit dirs ∧
    (BACKUP_DIR ∈ dirs → backupManagerInit dirs = dirs) := by
  constructor
  · by_cases h : BACKUP_DIR ∈ dirs
    · simp [backupManagerInit, setup_backup_directory, h]
    · simp [backupManagerInit, setup_backup_directory, h]
  · intro h
    simp [backupManagerInit, setup_backup_directory, h]

/-- Witness for C9's amended theorem (the conditional conjunct) at a state
where the directory already exists. -/
theorem C9_backup_dir_created_at_init_witness :
    BACKUP_DIR ∈ backupManagerInit [BACKUP_DIR] ∧
    (BACKUP_DIR ∈ [BACKUP_DIR] → backupManagerInit [BACKUP_DIR] = [BACKUP_DIR]) :=
  C9_backup_dir_created_at_init [BACKUP_DIR]

/-! ## Directory traversal (`os.walk` as used in `src/osaka/tools/search_tools.py`)

Both `search_files` and `multi_file_edit` walk the directory tree, skipping
any directory whose path contains `BACKUP_DIR` as a substring, pruning hidden
subdirectories (unless the backup-substring `continue` already skipped the
pruning), skipping hidden files, and applying the optional `fnmatch` filename
filter.  The tree is given as nested entries; the filename filter `filt`
abstracts `fnmatch.fnmatch(filename, file_pattern)` (with `none` modelled as
the always-true filter). -/

/-- A directory-tree entry: a file name or a subdirectory with children, in
`os.listdir` order. -/
inductive FSEntry where
  | file (nm : Str)
  | dir (nm : Str) (children : List FSEntry)

/-- `os.path.join(root, name)` for the names produced by `os.walk`. -/
def joinPath (d nm : Str) : Str := d ++ '/' :: nm

/-- A name hidden from the traversal (`startswith('.')`). -/
def isHiddenName (nm : Str) : Bool := nm.head? = some '.'

mutual

/-- The file paths yielded by the walk at directory `dirPath` with entries
`entries`: the directory's own files first (none if the path contains
`BACKUP_DIR`), then each subdirectory's files in order. -/
def walkFiles (dirPath : Str) (entries : List FSEntry) (filt : Str → Bool) :
    List Str :=
  (if pyContains dirPath BACKUP_DIR then []
   else entries.filterMap (fun e =>
     match e with
     | .file nm =>
       if isHiddenName nm then none
       else if filt nm then some (joinPath dirPath nm) else none
     | .dir _ _ => none)) ++
  walkSubdirs dirPath entries filt
  termination_by (sizeOf entries, 1)

/-- Recurse into the subdirectories among `entries`; hidden subdirectories
are pruned only when the `BACKUP_DIR` `continue` did not skip the pruning. -/
def walkSubdirs (dirPath : Str) : List FSEntry → (Str → Bool) → List Str
  | [], _ => []
  | .file _ :: rest, filt => walkSubdirs dirPath rest filt
  | .dir nm ch :: rest, filt =>
    (if pyContains dirPath BACKUP_DIR || !isHiddenName nm then
      walkFiles (joinPath dirPath nm) ch filt
     else []) ++ walkSubdirs dirPath rest filt
  termination_by entries _ => (sizeOf entries, 0)

end

/-! ## Python `re.sub` replacement-template semantics

`multi_file_edit`'s case-insensitive branch runs
`re.compile(re.escape(old_text), re.IGNORECASE).sub(new_text, content)`.
`re.sub` first parses `new_text` as a replacement template: `\n`, `\t`,
`\r`, `\v`, `\f`, `\a`, `\b` and `\\` become the corresponding single
characters, `\0` (with up to two more octal digits) an octal escape, `\g...`
and `\1`..`\99` group references — invalid here because the escaped literal
pattern has no groups — and any other escaped ASCII letter a `bad escape`
error; other escaped characters are kept verbatim. `none` models the raised
`re.error`. -/

/-- Octal digit test. -/
def isOctalDigit (c : Char) : Bool := '0' ≤ c ∧ c ≤ '7'

/-- ASCII letter test. -/
def isAsciiLetter (c : Char) : Bool := ('a' ≤ c ∧ c ≤ 'z') ∨ ('A' ≤ c ∧ c ≤ 'Z')

/-- ASCII digit test. -/
def isDigitChar (c : Char) : Bool := '0' ≤ c ∧ c ≤ '9'

/-- Parse a replacement template (for a pattern with no groups), expanding
escapes; `none` is a template `re.error`. -/
def reExpandTemplate : Str → Option Str
  | [] => some []
  | ['\\'] => none
  | '\\' :: c :: rest =>
    if c = 'n' then (reExpandTemplate rest).map (fun t => '\n' :: t)
    else if c = 't' then (reExpandTemplate rest).map (fun t => '\t' :: t)
    else if c = 'r' then (reExpandTemplate rest).map (fun t => '\x0d' :: t)
    else if c = 'v' then (reExpandTemplate rest).map (fun t => '\x0b' :: t)
    else if c = 'f' then (reExpandTemplate rest).map (fun t => '\x0c' :: t)
    else if c = 'a' then (reExpandTemplate rest).map (fun t => '\x07' :: t)
    else if c = 'b' then (reExpandTemplate rest).map (fun t => '\x08' :: t)
    else if c = '\\' then (reExpandTemplate rest).map (fun t => '\\' :: t)
    else if c = '0' then
      match rest with
      | d1 :: d2 :: rest2 =>
        if isOctalDigit d1 ∧ isOctalDigit d2 then
          (reExpandTemplate rest2).map (fun t =>
            Char.ofNat (8 * (d1.toNat - 48) + (d2.toNat - 48)) :: t)
        else if isOctalDigit d1 then
          (reExpandTemplate (d2 :: rest2)).map (fun t =>
            Char.ofNat (d1.toNat - 48) :: t)
        else (reExpandTemplate (d1 :: d2 :: rest2)).map (fun t => '\x00' :: t)
      | [d1] =>
        if isOctalDigit d1 then
          (reExpandTemplate []).map (fun t => Char.ofNat (d1.toNat - 48) :: t)
        else (reExpandTemplate [d1]).map (fun t => '\x00' :: t)
      | [] => some ['\x00']
    else if isDigitChar c then none
    else if isAsciiLetter c then none
    else (reExpandTemplate rest).map (fun t => '\\' :: c :: t)
  | c :: rest => (reExpandTemplate rest).map (fun t => c :: t)

/-- Case-insensitive literal substitution: replace every non-overlapping
leftmost occurrence of `lold` (already lower-cased) with the expanded
replacement, case-folding the subject for matching only — the written
replacement is always `expanded` itself. -/
def ciReplace (lold expanded : Str) : Str → Str
  | [] => if lold.isEmpty then expanded else []
  | c :: rest =>
    if h : lold ≠ [] ∧ lold.isPrefixOf (toLowerStr (c :: rest)) then
      expanded ++ ciReplace lold expanded ((c :: rest).drop lold.length)
    else if lold.isEmpty then
      expanded ++ c :: ciReplace lold expanded rest
    else
      c :: ciReplace lold expanded rest
  termination_by s => s.length
  decreasing_by
  · simp only [List.length_drop]
    have : lold.length ≥ 1 := by
      cases hol : lold with
      | nil => exact absurd hol h.1
      | cons a t => simp
    simp [List.length_cons]
    omega
  · simp [List.length_cons]
  · simp [List.length_cons]

/-- `re.compile(re.escape(old), re.IGNORECASE).sub(new, content)`: template
expansion of `new` followed by case-insensitive literal substitution; `none`
is the `re.error` raised on an invalid template. -/
def reSubLiteralCI (old new content : Str) : Option Str :=
  (reExpandTemplate new).map (fun expanded =>
    ciReplace (toLowerStr old) expanded content)

/-! ## SearchTools.multi_file_edit (`src/osaka/tools/search_tools.py`) -/

/-- The loop state of `multi_file_edit`: the filesystem and history it
mutates, plus its three accumulators. -/
structure MFELoopState where
  fs : FS
  hist : List HistoryEntry
  files_modified : List Str
  files_with_matches : List (Str × Nat)
  total_replacements : Nat
deriving DecidableEq, Repr

/-- Result of processing a prefix of the walked files: `error` is an
exception escaping to the outer handler (only the `re.error` of the
case-insensitive substitution), carrying the state mutated so far. -/
inductive MFEStep where
  | ok (ls : MFELoopState)
  | error (ls : MFELoopState)
deriving DecidableEq, Repr

/-- The state carried by either outcome. -/
def MFEStep.state : MFEStep → MFELoopState
  | .ok ls => ls
  | .error ls => ls

/-- Process one walked file of `multi_file_edit`: skip it if unreadable or if
`old_text` does not occur (case according to `cs`); otherwise record it as a
candidate with its occurrence count and, unless `dry` is set, back it up,
substitute, write, and append a history entry. -/
def mfeProcessFile (old new ts : Str) (cs dry : Bool)
    (ls : MFELoopState) (filepath : Str) : MFEStep :=
  match fsGet ls.fs filepath with
  | none => .ok ls
  | some content =>
    let hit := if cs then pyContains content old
      else pyContains (toLowerStr content) (toLowerStr old)
    if !hit then .ok ls
    else
      let count := if cs then pyCount old content
        else pyCount (toLowerStr old) (toLowerStr content)
      let ls1 := { ls with
        files_with_matches := ls.files_with_matches ++ [(filepath, count)] }
      if dry then
        .ok { ls1 with total_replacements := ls1.total_replacements + count }
      else
        let bk := create_backup ls1.fs filepath ts
        match (if cs then some (pyReplace old new content)
          else reSubLiteralCI old new content) with
        | none => .error { ls1 with fs := bk.2 }
        | some newContent =>
          .ok { fs := fsSet bk.2 filepath newContent,
                hist := ls1.hist ++ [⟨filepath, bk.1, .edit, ts, true⟩],
                files_modified := ls1.files_modified ++ [filepath],
                files_with_matches := ls1.files_with_matches,
                total_replacements := ls1.total_replacements + count }

/-- Fold `mfeProcessFile` over the walked files, stopping at an exception. -/
def mfeLoop (old new ts : Str) (cs dry : Bool) :
    List Str → MFELoopState → MFEStep
  | [], ls => .ok ls
  | p :: rest, ls =>
    match mfeProcessFile old new ts cs dry ls p with
    | .ok ls' => mfeLoop old new ts cs dry rest ls'
    | .error ls' => .error ls'

/-- The result message of `multi_file_edit`, mirroring its return strings. -/
inductive MFEMsg where
  | path_not_found (p : Str)
  | no_files_found (old : Str)
  | dry_run_report (entries : List (Str × Nat)) (total : Nat)
  | modified_report (files : List Str) (total : Nat)
  | error_msg
deriving DecidableEq, Repr

/-- `SearchTools.multi_file_edit`: `tree` is the directory tree under `root`
(`none` when the root path does not exist), `filt` the filename filter, `ts`
the backup timestamp from the environment. -/
def multi_file_edit (st : AgentState) (old new root : Str)
    (tree : Option (List FSEntry)) (filt : Str → Bool) (cs dry : Bool)
    (ts : Str) : MFEMsg × AgentState :=
  match tree with
  | none => (.path_not_found root, st)
  | some entries =>
    let walked := walkFiles root entries filt
    match mfeLoop old new ts cs dry walked ⟨st.fs, st.edit_history, [], [], 0⟩ with
    | .error ls => (.error_msg, ⟨ls.fs, ls.hist⟩)
    | .ok ls =>
      if ls.files_with_matches.isEmpty then (.no_files_found old, ⟨ls.fs, ls.hist⟩)
      else if dry then
        (.dry_run_report ls.files_with_matches ls.total_replacements,
          ⟨ls.fs, ls.hist⟩)
      else
        (.modified_report ls.files_modified ls.total_replacements,
          ⟨ls.fs, ls.hist⟩)

/-- The `required` field of the `multi_file_edit` tool schema
(`SearchTools.get_tool_definitions`): only `old_text` and `new_text` are
required, with no constraint on their values. -/
def multi_file_edit_required : List String := ["old_text", "new_text"]

/-! ## Empty-needle facts (Python semantics) -/

/-- Python: `"" in content` is always true. -/
@[simp] theorem pyContains_nil_old (content : Str) : pyContains content [] = true := by
  cases content <;> simp [pyContains, List.isPrefixOf]

/-- Python: `content.count("") = len(content) + 1`. -/
theorem pyCount_nil_old (content : Str) : pyCount [] content = content.length + 1 := by
  induction content with
  | nil => simp [pyCount]
  | cons c rest ih =>
    simp [pyCount, ih]
    omega

/-- Python: `content.replace("", new)` inserts `new` at every character
boundary. -/
theorem pyReplace_nil_old (new content : Str) :
    pyReplace [] new content = new ++ content.flatMap (fun c => c :: new) := by
  induction content with
  | nil => simp [pyReplace]
  | cons c rest ih => simp [pyReplace, ih]

/-! ## The candidate-and-count report of `multi_file_edit`

`mfeCandidates` is the list of `(filepath, occurrence count)` pairs that the
loop accumulates in `files_with_matches` over a fixed filesystem: the data
the dry-run report consists of. -/

/-- The candidate files (with occurrence counts) among `paths` on filesystem
`fs`. -/
def mfeCandidates (fs : FS) (old : Str) (cs : Bool) : List Str → List (Str × Nat)
  | [] => []
  | p :: rest =>
    match fsGet fs p with
    | none => mfeCandidates fs old cs rest
    | some content =>
      if (if cs then pyContains content old
          else pyContains (toLowerStr content) (toLowerStr old)) then
        (p, if cs then pyCount old content
            else pyCount (toLowerStr old) (toLowerStr content)) ::
          mfeCandidates fs old cs rest
      else mfeCandidates fs old cs rest

/-- With `dry_run = true` the loop performs no mutation at all: it returns
the input state extended only by the candidate report and the exact total. -/
theorem mfeLoop_dry_eq (old new ts : Str) (cs : Bool) (paths : List Str)
    (ls : MFELoopState) :
    mfeLoop old new ts cs true paths ls =
      .ok { ls with
        files_with_matches :=
          ls.files_with_matches ++ mfeCandidates ls.fs old cs paths,
        total_replacements := ls.total_replacements +
          ((mfeCandidates ls.fs old cs paths).map Prod.snd).sum } := by
  induction paths generalizing ls with
  | nil => simp [mfeLoop, mfeCandidates]
  | cons p rest ih =>
    simp only [mfeLoop, mfeProcessFile]
    cases hg : fsGet ls.fs p with
    | none =>
      simp only [mfeCandidates, hg]
      exact ih ls
    | some content =>
      by_cases hhit : (if cs then pyContains content old
          else pyContains (toLowerStr content) (toLowerStr old)) = true
      · simp only [mfeCandidates, hg, hhit, if_true, if_pos, Bool.not_true,
          Bool.false_eq_true, if_false]
        rw [ih]
        simp [List.append_assoc]
        omega
      · simp only [mfeCandidates, hg, hhit, if_neg, Bool.not_eq_true] at hhit ⊢
        simp only [hhit, Bool.not_false, if_true, if_false]
        exact ih ls

/-! ## Claim C4: dry-run is pure -/

/-- C4: for every directory tree, filename filter and argument combination,
`multi_file_edit` with `dry_run = true` leaves the whole agent state (files,
backups, history stack) unchanged, and reports exactly the candidate files
with their occurrence counts (or the no-files message when there is no
candidate). -/
theorem C4_dry_run_pure (st : AgentState) (old new root : Str)
    (entries : List FSEntry) (filt : Str → Bool) (cs : Bool) (ts : Str) :
    (multi_file_edit st old new root (some entries) filt cs true ts).2 = st ∧
    (multi_file_edit st old new root (some entries) filt cs true ts).1 =
      (if (mfeCandidates st.fs old cs (walkFiles root entries filt)).isEmpty then
        .no_files_found old
       else
        .dry_run_report (mfeCandidates st.fs old cs (walkFiles root entries filt))
          ((mfeCandidates st.fs old cs (walkFiles root entries filt)).map
            Prod.snd).sum) := by
  have hloop := mfeLoop_dry_eq old new ts cs (walkFiles root entries filt)
    ⟨st.fs, st.edit_history, [], [], 0⟩
  constructor
  · simp only [multi_file_edit, hloop]
    by_cases he : (mfeCandidates st.fs old cs (walkFiles root entries filt)).isEmpty
    · simp [he]
    · simp [he]
  · simp only [multi_file_edit, hloop]
    by_cases he : (mfeCandidates st.fs old cs (walkFiles root entries filt)).isEmpty
    · simp [he]
    · simp [he]

/-! ## Frame and progress lemmas for the `multi_file_edit` loop -/

/-- Whether a loop step completed without an exception. -/
def MFEStep.isOk : MFEStep → Bool
  | .ok _ => true
  | .error _ => false

theorem MFEStep.eq_ok_of_isOk {s : MFEStep} (h : s.isOk = true) :
    s = .ok s.state := by
  cases s with
  | ok ls => rfl
  | error ls => simp [MFEStep.isOk] at h

/-- One loop step touches the filesystem only at the processed path and its
backup path. -/
theorem mfeProcessFile_frame (old new ts : Str) (cs dry : Bool)
    (ls : MFELoopState) (q p : Str) (hpq : p ≠ q)
    (hpb : p ≠ backupPathOf q ts) :
    fsGet (mfeProcessFile old new ts cs dry ls q).state.fs p = fsGet ls.fs p := by
  cases hg : fsGet ls.fs q with
  | none => simp [mfeProcessFile, hg, MFEStep.state]
  | some content =>
    cases hhit : (if cs then pyContains content old
        else pyContains (toLowerStr content) (toLowerStr old)) with
    | false => simp [mfeProcessFile, hg, hhit, MFEStep.state]
    | true =>
      cases dry with
      | true => simp [mfeProcessFile, hg, hhit, MFEStep.state]
      | false =>
        cases hsub : (if cs then some (pyReplace old new content)
            else reSubLiteralCI old new content) with
        | none =>
          simp [mfeProcessFile, hg, hhit, hsub, MFEStep.state, create_backup, hpb]
        | some nc =>
          simp [mfeProcessFile, hg, hhit, hsub, MFEStep.state, create_backup,
            hpq, hpb]

/-- The loop touches the filesystem only at processed paths and their backup
paths. -/
theorem mfeLoop_frame (old new ts : Str) (cs dry : Bool) (paths : List Str)
    (ls : MFELoopState) (p : Str) (hp : p ∉ paths)
    (hb : ∀ q ∈ paths, p ≠ backupPathOf q ts) :
    fsGet ((mfeLoop old new ts cs dry paths ls).state.fs) p = fsGet ls.fs p := by
  induction paths generalizing ls with
  | nil => simp [mfeLoop, MFEStep.state]
  | cons q rest ih =>
    have hpq : p ≠ q := fun hh => hp (hh ▸ List.mem_cons_self q rest)
    have hpb : p ≠ backupPathOf q ts := hb q (List.mem_cons_self q rest)
    have hframe := mfeProcessFile_frame old new ts cs dry ls q p hpq hpb
    simp only [mfeLoop]
    cases hstep : mfeProcessFile old new ts cs dry ls q with
    | ok ls' =>
      rw [hstep] at hframe
      simp only [MFEStep.state] at hframe
      rw [ih ls' (fun hh => hp (List.mem_cons_of_mem q hh))
        (fun r hr => hb r (List.mem_cons_of_mem q hr)), hframe]
    | error ls' =>
      rw [hstep] at hframe
      simp only [MFEStep.state] at hframe
      simpa [MFEStep.state] using hframe

/-- With `case_sensitive = true` no step can raise: the only exception source
is the case-insensitive substitution. -/
theorem mfeProcessFile_cs_isOk (old new ts : Str) (dry : Bool)
    (ls : MFELoopState) (q : Str) :
    (mfeProcessFile old new ts true dry ls q).isOk = true := by
  cases hg : fsGet ls.fs q with
  | none => simp [mfeProcessFile, hg, MFEStep.isOk]
  | some content =>
    cases hhit : pyContains content old with
    | false => simp [mfeProcessFile, hg, hhit, MFEStep.isOk]
    | true =>
      cases dry with
      | true => simp [mfeProcessFile, hg, hhit, MFEStep.isOk]
      | false => simp [mfeProcessFile, hg, hhit, MFEStep.isOk]

/-- Case-sensitive non-dry run: every processed file whose content `C`
contains `old` ends up holding `C.replace(old, new)`, provided the walked
paths are distinct and no backup path collides with a walked path. -/
theorem mfeLoop_writes (old new ts : Str) (paths : List Str)
    (ls : MFELoopState) (p C : Str)
    (hnd : paths.Nodup) (hp : p ∈ paths)
    (hread : fsGet ls.fs p = some C)
    (hbp : ∀ q ∈ paths, p ≠ backupPathOf q ts)
    (hhit : pyContains C old = true) :
    fsGet ((mfeLoop old new ts true false paths ls).state.fs) p =
      some (pyReplace old new C) := by
  induction paths generalizing ls with
  | nil => simp at hp
  | cons q rest ih =>
    by_cases hqp : q = p
    · subst hqp
      have hbp_self : q ≠ backupPathOf q ts := hbp q (List.mem_cons_self q rest)
      have hstep : mfeProcessFile old new ts true false ls q =
          .ok { fs := fsSet (fsSet ls.fs (backupPathOf q ts) C) q
                  (pyReplace old new C),
                hist := ls.hist ++ [⟨q, some (backupPathOf q ts), .edit, ts, true⟩],
                files_modified := ls.files_modified ++ [q],
                files_with_matches := ls.files_with_matches ++ [(q, pyCount old C)],
                total_replacements := ls.total_replacements + pyCount old C } := by
        unfold mfeProcessFile
        rw [hread]
        simp only [hhit, reduceIte, Bool.not_true, Bool.false_eq_true, if_false,
          create_backup]
        rw [hread]
      have hq_rest : q ∉ rest := (List.nodup_cons.mp hnd).1
      simp only [mfeLoop, hstep]
      rw [mfeLoop_frame old new ts true false rest _ q hq_rest
        (fun r hr => hbp r (List.mem_cons_of_mem q hr))]
      simp [hbp_self]
    · have hpq : p ≠ q := fun hh => hqp hh.symm
      have hp_rest : p ∈ rest := by
        cases List.mem_cons.mp hp with
        | inl hh => exact absurd hh.symm hqp
        | inr hh => exact hh
      have hok := mfeProcessFile_cs_isOk old new ts false ls q
      have hframe := mfeProcessFile_frame old new ts true false ls q p hpq
        (hbp q (List.mem_cons_self q rest))
      cases hstep : mfeProcessFile old new ts true false ls q with
      | error lse =>
        rw [hstep] at hok
        simp [MFEStep.isOk] at hok
      | ok ls' =>
        rw [hstep] at hframe
        simp only [MFEStep.state] at hframe
        simp only [mfeLoop, hstep]
        exact ih ls' (List.nodup_cons.mp hnd).2 hp_rest
          (by rw [hframe, hread])
          (fun r hr => hbp r (List.mem_cons_of_mem q hr))

/-- In every branch, the returned agent state of `multi_file_edit` is exactly
the loop's final filesystem and history. -/
theorem multi_file_edit_state_eq (st : AgentState) (old new root : Str)
    (entries : List FSEntry) (filt : Str → Bool) (cs dry : Bool) (ts : Str) :
    (multi_file_edit st old new root (some entries) filt cs dry ts).2 =
      ⟨(mfeLoop old new ts cs dry (walkFiles root entries filt)
          ⟨st.fs, st.edit_history, [], [], 0⟩).state.fs,
        (mfeLoop old new ts cs dry (walkFiles root entries filt)
          ⟨st.fs, st.edit_history, [], [], 0⟩).state.hist⟩ := by
  simp only [multi_file_edit]
  cases hloop : mfeLoop old new ts cs dry (walkFiles root entries filt)
      ⟨st.fs, st.edit_history, [], [], 0⟩ with
  | ok ls =>
    simp only [MFEStep.state]
    split_ifs <;> rfl
  | error ls => simp [MFEStep.state]

/-- The candidate report when `old_text` is empty: every readable walked file
is a candidate with count `len + 1`. -/
theorem mfeCandidates_nil_old (fs : FS) (paths : List Str) :
    mfeCandidates fs [] true paths =
      paths.filterMap (fun p => (fsGet fs p).map (fun c => (p, c.length + 1))) := by
  induction paths with
  | nil => simp [mfeCandidates]
  | cons p rest ih =>
    cases hg : fsGet fs p with
    | none => simp [mfeCandidates, hg, ih]
    | some c => simp [mfeCandidates, hg, ih, pyContains_nil_old, pyCount_nil_old]

/-! ## Claim C10: empty `old_text` -/

/-- C10: the `multi_file_edit` schema requires only the presence of
`old_text` and `new_text`, so the empty `old_text` is permitted; with
`old_text = ""` every readable walked file is a candidate whose reported
occurrence count is its character length plus one, and with
`dry_run = false` (defaults: `case_sensitive = true`) each such file is
rewritten with `new_text` inserted at every character boundary (assuming
distinct walked paths and no collision between walked paths and generated
backup paths). -/
theorem C10_empty_old_text
    (st : AgentState) (new root ts : Str) (entries : List FSEntry)
    (filt : Str → Bool)
    (hnd : (walkFiles root entries filt).Nodup)
    (hdisj : ∀ p ∈ walkFiles root entries filt,
      ∀ q ∈ walkFiles root entries filt, p ≠ backupPathOf q ts) :
    multi_file_edit_required = ["old_text", "new_text"] ∧
    mfeCandidates st.fs [] true (walkFiles root entries filt) =
      (walkFiles root entries filt).filterMap (fun p =>
        (fsGet st.fs p).map (fun c => (p, c.length + 1))) ∧
    (∀ p ∈ walkFiles root entries filt, ∀ c, fsGet st.fs p = some c →
      fsGet (multi_file_edit st [] new root (some entries) filt true false
          ts).2.fs p =
        some (new ++ c.flatMap (fun ch => ch :: new))) := by
  refine ⟨rfl, mfeCandidates_nil_old st.fs (walkFiles root entries filt), ?_⟩
  intro p hp c hc
  rw [multi_file_edit_state_eq]
  rw [← pyReplace_nil_old new c]
  exact mfeLoop_writes [] new ts (walkFiles root entries filt)
    ⟨st.fs, st.edit_history, [], [], 0⟩ p c hnd hp hc
    (fun q hq => hdisj p hp q hq) (pyContains_nil_old c)

/-- Witness for C10 at a concrete input: one file `r/f` with content `ab`,
`new_text = "-"`. -/
theorem C10_empty_old_text_witness :
    ((walkFiles "r".toList [FSEntry.file "f".toList] (fun _ => true)).Nodup ∧
      (∀ p ∈ walkFiles "r".toList [FSEntry.file "f".toList] (fun _ => true),
        ∀ q ∈ walkFiles "r".toList [FSEntry.file "f".toList] (fun _ => true),
          p ≠ backupPathOf q "T".toList)) ∧
    (multi_file_edit_required = ["old_text", "new_text"] ∧
     mfeCandidates (AgentState.mk [("r/f".toList, "ab".toList)] []).fs []
        true (walkFiles "r".toList [FSEntry.file "f".toList] (fun _ => true)) =
       (walkFiles "r".toList [FSEntry.file "f".toList] (fun _ => true)).filterMap
         (fun p => (fsGet (AgentState.mk [("r/f".toList, "ab".toList)] []).fs p).map
           (fun c => (p, c.length + 1))) ∧
     (∀ p ∈ walkFiles "r".toList [FSEntry.file "f".toList] (fun _ => true),
       ∀ c, fsGet (AgentState.mk [("r/f".toList, "ab".toList)] []).fs p = some c →
         fsGet (multi_file_edit (AgentState.mk [("r/f".toList, "ab".toList)] [])
             [] "-".toList "r".toList (some [FSEntry.file "f".toList])
             (fun _ => true) true false "T".toList).2.fs p =
           some ("-".toList ++ c.flatMap (fun ch => ch :: "-".toList)))) := by
  have hnd : (walkFiles "r".toList [FSEntry.file "f".toList] (fun _ => true)).Nodup := by
    simp [walkFiles, walkSubdirs, joinPath, isHiddenName, pyContains, BACKUP_DIR]
  have hdisj : ∀ p ∈ walkFiles "r".toList [FSEntry.file "f".toList] (fun _ => true),
      ∀ q ∈ walkFiles "r".toList [FSEntry.file "f".toList] (fun _ => true),
        p ≠ backupPathOf q "T".toList := by
    simp [walkFiles, walkSubdirs, joinPath, isHiddenName, pyContains, BACKUP_DIR,
      backupPathOf, basename]
  exact ⟨⟨hnd, hdisj⟩,
    C10_empty_old_text (AgentState.mk [("r/f".toList, "ab".toList)] [])
      "-".toList "r".toList "T".toList [FSEntry.file "f".toList]
      (fun _ => true) hnd hdisj⟩

/-! ## Claim C7: the case-insensitive replacement alters `new_text`

With `case_sensitive = false` the replacement goes through `re.sub`, whose
template processing converts backslash escapes in `new_text`.  Replacing
`"a"` by the two-character string `\n` (backslash, `n`) in the file content
`"A"` writes the single newline character, not the two characters given by
the caller — the case-sensitive branch and the tool description promise a
literal replacement, so this is a slip in the code. -/

/-- C7: concrete evaluation of the bug.  `multi_file_edit` with
`old_text = "a"`, `new_text = "\n"` (backslash + `n`), `case_sensitive =
false`, `dry_run = false` on a file containing `"A"` reports one replacement
but writes the newline character: the replaced occurrence is NOT the exact
`new_text` given by the caller. -/
theorem C7_ci_replacement_escapes_new_text :
    (multi_file_edit (AgentState.mk [("r/f".toList, "A".toList)] [])
        "a".toList "\\n".toList "r".toList (some [FSEntry.file "f".toList])
        (fun _ => true) false false "T".toList).1 =
      .modified_report ["r/f".toList] 1 ∧
    fsGet (multi_file_edit (AgentState.mk [("r/f".toList, "A".toList)] [])
        "a".toList "\\n".toList "r".toList (some [FSEntry.file "f".toList])
        (fun _ => true) false false "T".toList).2.fs "r/f".toList =
      some "\n".toList ∧
    "\n".toList ≠ "\\n".toList := by
  refine ⟨?_, ?_, by decide⟩ <;>
    simp [multi_file_edit, walkFiles, walkSubdirs, joinPath, isHiddenName,
      pyContains, BACKUP_DIR, mfeLoop, mfeProcessFile, toLowerStr, pyCount,
      create_backup, backupPathOf, basename, reSubLiteralCI, reExpandTemplate,
      ciReplace, MFEStep.state, fsGet, fsSet, isOctalDigit, isAsciiLetter,
      isDigitChar]

/-! ## SearchTools.search_files (`src/osaka/tools/search_tools.py`)

Plain-text search (the `use_regex = false` branch; the claims do not
exercise the regex branch).  `f.readlines()` keeps line terminators;
matching tests the pattern against the whole line (lower-cased when the
search is case-insensitive); displayed lines are `rstrip`ped. -/

/-- `f.readlines()`: split keeping the `\n` terminators; a trailing chunk
without a newline is kept, an empty trailing chunk is not. -/
def splitLinesAux (acc : Str) : Str → List Str
  | [] => if acc = [] then [] else [acc.reverse]
  | c :: rest =>
    if c = '\n' then (acc.reverse ++ ['\n']) :: splitLinesAux [] rest
    else splitLinesAux (c :: acc) rest

/-- `f.readlines()` on a whole file content. -/
def splitLines (s : Str) : List Str := splitLinesAux [] s

/-- Python's `line.rstrip()` (ASCII whitespace). -/
def pyRstrip (s : Str) : Str := (s.reverse.dropWhile isSpaceChar).reverse

/-- One line matches the plain-text pattern (`search_pattern in search_line`,
lower-casing both when case-insensitive). -/
def lineMatches (pattern : Str) (cs : Bool) (line : Str) : Bool :=
  pyContains (if cs then line else toLowerStr line)
    (if cs then pattern else toLowerStr pattern)

/-- The `(line_num, line.rstrip())` pairs of the matching lines of a file
(line numbers starting at 1). -/
def fileMatchingLines (pattern : Str) (cs : Bool) (content : Str) :
    List (Nat × Str) :=
  (splitLines content).enum.filterMap (fun e =>
    if lineMatches pattern cs e.2 then some (e.1 + 1, pyRstrip e.2) else none)

/-- The accumulators of `search_files`: the per-file results (files with at
least one match, each with ALL its matching lines), the exact total match
count, and the number of files read successfully. -/
structure SearchOutcome where
  results : List (Str × List (Nat × Str))
  total_matches : Nat
  files_searched : Nat
deriving DecidableEq, Repr

/-- The search loop over the walked files: unreadable files are skipped
silently (not counted in `files_searched`); every matching line increments
`total_matches`; a file joins `results` iff it has a matching line. -/
def searchFold (pattern : Str) (cs : Bool) (fs : FS) :
    List Str → SearchOutcome → SearchOutcome
  | [], acc => acc
  | p :: rest, acc =>
    match fsGet fs p with
    | none => searchFold pattern cs fs rest acc
    | some content =>
      let fm := fileMatchingLines pattern cs content
      searchFold pattern cs fs rest
        { results := if fm = [] then acc.results else acc.results ++ [(p, fm)],
          total_matches := acc.total_matches + fm.length,
          files_searched := acc.files_searched + 1 }

/-- One line of the formatted search report, one constructor per format
string of the source. -/
inductive SearchLine where
  | header (file : Str)
  | line (num : Nat) (text : Str)
  | more (count : Nat)
deriving DecidableEq, Repr

/-- Whether a report line displays a matching line. -/
def SearchLine.isMatchLine : SearchLine → Bool
  | .line _ _ => true
  | _ => false

/-- The per-file block of the report: the file header, the first 5 matching
lines, and a `... and N more matches` notice when over 5. -/
def renderFileBlock (r : Str × List (Nat × Str)) : List SearchLine :=
  .header r.1 :: (r.2.take 5).map (fun e => .line e.1 e.2) ++
    (if r.2.length > 5 then [.more (r.2.length - 5)] else [])

/-- The result message of `search_files`, mirroring its return strings. -/
inductive SearchMsg where
  | path_not_found (p : Str)
  | no_matches (pattern : Str) (files_searched : Nat)
  | found (total : Nat) (files_matched : Nat) (files_searched : Nat)
      (blocks : List (List SearchLine))
deriving DecidableEq, Repr

/-- `SearchTools.search_files` (plain-text branch): `tree` is the directory
tree under `root` (`none` if the root path does not exist). -/
def search_files (st : AgentState) (pattern root : Str)
    (tree : Option (List FSEntry)) (filt : Str → Bool) (cs : Bool) :
    SearchMsg :=
  match tree with
  | none => .path_not_found root
  | some entries =>
    let out := searchFold pattern cs st.fs (walkFiles root entries filt) ⟨[], 0, 0⟩
    if out.results = [] then .no_matches pattern out.files_searched
    else
      .found out.total_matches out.results.length out.files_searched
        (out.results.map renderFileBlock)

/-- Accumulator-free description of the search loop. -/
def searchSpec (pattern : Str) (cs : Bool) (fs : FS) : List Str → SearchOutcome
  | [] => ⟨[], 0, 0⟩
  | p :: rest =>
    let o := searchSpec pattern cs fs rest
    match fsGet fs p with
    | none => o
    | some content =>
      let fm := fileMatchingLines pattern cs content
      ⟨(if fm = [] then [] else [(p, fm)]) ++ o.results,
        fm.length + o.total_matches, 1 + o.files_searched⟩

theorem searchFold_eq (pattern : Str) (cs : Bool) (fs : FS)
    (paths : List Str) (acc : SearchOutcome) :
    searchFold pattern cs fs paths acc =
      ⟨acc.results ++ (searchSpec pattern cs fs paths).results,
        acc.total_matches + (searchSpec pattern cs fs paths).total_matches,
        acc.files_searched + (searchSpec pattern cs fs paths).files_searched⟩ := by
  induction paths generalizing acc with
  | nil => simp [searchFold, searchSpec]
  | cons p rest ih =>
    simp only [searchFold, searchSpec]
    cases hg : fsGet fs p with
    | none => simp [hg, ih]
    | some content =>
      by_cases hfm : fileMatchingLines pattern cs content = []
      · simp [hg, hfm, ih]
        omega
      · simp [hg, hfm, ih, List.append_assoc]
        omega

/-- The exact-total invariant: the total match count equals the sum of the
(untruncated) per-file match-list lengths. -/
theorem searchSpec_total_eq_sum (pattern : Str) (cs : Bool) (fs : FS)
    (paths : List Str) :
    (searchSpec pattern cs fs paths).total_matches =
      ((searchSpec pattern cs fs paths).results.map
        (fun r => r.2.length)).sum := by
  induction paths with
  | nil => simp [searchSpec]
  | cons p rest ih =>
    simp only [searchSpec]
    cases hg : fsGet fs p with
    | none => simp [hg, ih]
    | some content =>
      by_cases hfm : fileMatchingLines pattern cs content = []
      · simp [hg, hfm, ih]
      · simp [hg, hfm, ih]

/-! ## Claim C5: line-oriented counting with exact totals under truncation -/

/-- C5: `search_files` counts matches line-orientedly and its aggregate
totals are exact even when display is truncated: (i) the reported total
always equals the sum of the untruncated per-file match counts; (ii) a
file's block displays at most 5 matching lines; (iii) a file with more than
5 matches gets a trailing `... and N more` notice; (iv) on a directory with
`a.txt` (1 matching line) and `b.txt` (7 matching lines) the report states
`total_matches = 8`, `files_matched = 2`, shows 5 lines for `b.txt` and a
`2 more` notice. -/
theorem C5_search_totals_exact :
    (∀ (pattern : Str) (cs : Bool) (fs : FS) (paths : List Str),
      (searchFold pattern cs fs paths ⟨[], 0, 0⟩).total_matches =
        ((searchFold pattern cs fs paths ⟨[], 0, 0⟩).results.map
          (fun r => r.2.length)).sum) ∧
    (∀ r : Str × List (Nat × Str),
      ((renderFileBlock r).filter SearchLine.isMatchLine).length =
        min 5 r.2.length) ∧
    (∀ r : Str × List (Nat × Str), 5 < r.2.length →
      (renderFileBlock r).getLast? = some (.more (r.2.length - 5))) ∧
    search_files
        (AgentState.mk [("r/a.txt".toList, "x\n".toList),
          ("r/b.txt".toList, "x\nx\nx\nx\nx\nx\nx\n".toList)] [])
        "x".toList "r".toList
        (some [FSEntry.file "a.txt".toList, FSEntry.file "b.txt".toList])
        (fun _ => true) false =
      .found 8 2 2
        [[.header "r/a.txt".toList, .line 1 "x".toList],
         [.header "r/b.txt".toList, .line 1 "x".toList, .line 2 "x".toList,
          .line 3 "x".toList, .line 4 "x".toList, .line 5 "x".toList,
          .more 2]] := by
  refine ⟨?_, ?_, ?_, ?_⟩
  · intro pattern cs fs paths
    rw [searchFold_eq]
    simp [searchSpec_total_eq_sum]
  · intro r
    have hkeep : ((r.2.take 5).map (fun e => SearchLine.line e.1 e.2)).filter
        SearchLine.isMatchLine =
        (r.2.take 5).map (fun e => SearchLine.line e.1 e.2) := by
      rw [List.filter_eq_self]
      intro a ha
      simp only [List.mem_map] at ha
      obtain ⟨e, _, rfl⟩ := ha
      rfl
    by_cases h : 5 < r.2.length
    · unfold renderFileBlock
      rw [if_pos h, List.filter_append, List.filter_cons, hkeep]
      simp [SearchLine.isMatchLine, List.length_take]
    · unfold renderFileBlock
      rw [if_neg h, List.filter_append, List.filter_cons, hkeep]
      simp [SearchLine.isMatchLine, List.length_take]
  · intro r h
    unfold renderFileBlock
    rw [if_pos h]
    exact List.getLast?_concat _
  · simp [search_files, walkFiles, walkSubdirs, joinPath, isHiddenName,
      pyContains, BACKUP_DIR, searchFold, fileMatchingLines, splitLines,
      splitLinesAux, pyRstrip, lineMatches, toLowerStr, isSpaceChar, fsGet,
      renderFileBlock, List.enum, List.enumFrom]

/-- Witness for C5's truncation-notice conjunct at a 7-match file. -/
theorem C5_search_totals_exact_witness :
    (5 < (("r/b.txt".toList,
        [(1, "x".toList), (2, "x".toList), (3, "x".toList), (4, "x".toList),
          (5, "x".toList), (6, "x".toList), (7, "x".toList)]) :
        Str × List (Nat × Str)).2.length) ∧
    (renderFileBlock ("r/b.txt".toList,
        [(1, "x".toList), (2, "x".toList), (3, "x".toList), (4, "x".toList),
          (5, "x".toList), (6, "x".toList), (7, "x".toList)])).getLast? =
      some (.more 2) :=
  ⟨by decide,
    C5_search_totals_exact.2.2.1 ("r/b.txt".toList,
      [(1, "x".toList), (2, "x".toList), (3, "x".toList), (4, "x".toList),
        (5, "x".toList), (6, "x".toList), (7, "x".toList)]) (by decide)⟩

end Osaka
